import Mathlib

/-!
Shallow embedding of `vardbg/output/video_writer/renderer.py` (`FrameRenderer`).

Conventions of the embedding:
* Python floats are modelled as `ℚ` (the quantities involved are exact
  rationals: configuration constants, glyph sizes and their sums/quotients).
* Python `round` is round-half-to-even (banker's rounding), modelled by
  `pyRound`; `int(x)` truncates toward zero, modelled by `pyInt`;
  `a // b` is floor division, modelled with `Int.floor` on `ℚ`.
* Python list slicing `xs[s:e]` (with possibly negative indices) is modelled
  by `pySlice`; `xs[s:]` by `pySliceFrom`.
* `textwrap.wrap` is an external stdlib collaborator; the renderer's own code
  is agnostic to its output, so it is passed in as a function parameter
  `wrapF : String → List String`.
* PIL canvases are abstracted to identifiers (`ℕ`): `new_frame` allocates a
  fresh identifier, the encoder's `write` records the identifier of the
  submitted canvas, and mutation of an already-submitted canvas is tracked
  by a flag (`bad_mut`).
* `draw.textsize(text, font)` is an external glyph-metrics collaborator,
  passed in as function parameters returning `ℚ × ℚ`.
-/

namespace Vardbg

/-- Python `round`: round half to even (banker's rounding). -/
def pyRound (q : ℚ) : ℤ :=
  let f := ⌊q⌋
  if q - f < 1/2 then f
  else if q - f > 1/2 then f + 1
  else if f % 2 = 0 then f else f + 1

/-- Python `int()` on a float: truncation toward zero. -/
def pyInt (q : ℚ) : ℤ :=
  if q < 0 then ⌈q⌉ else ⌊q⌋

/-- Python list slice `xs[s:e]` with arbitrary integer bounds:
negative indices count from the end, then both bounds are clamped to
`[0, length]`. -/
def pySlice {α : Type} (s e : ℤ) (xs : List α) : List α :=
  let n : ℤ := xs.length
  let s1 := if s < 0 then n + s else s
  let e1 := if e < 0 then n + e else e
  let s2 : ℕ := s1.toNat
  let e2 : ℕ := e1.toNat
  (xs.drop s2).take (e2 - s2)

/-- Python list slice `xs[s:]`. -/
def pySliceFrom {α : Type} (s : ℤ) (xs : List α) : List α :=
  let n : ℤ := xs.length
  let s1 := if s < 0 then n + s else s
  xs.drop s1.toNat

/-- One raw line's contribution to the wrapped line list
(renderer.py lines 196-202): if `textwrap.wrap` returns no segments the raw
line still contributes one empty Display Line, otherwise every segment
carries the raw line's highlighted flag. -/
def wrap_line_entry (wrapF : String → List String) (line : String) (hl : Bool) :
    List (String × Bool) :=
  match wrapF line with
  | [] => [("", hl)]
  | segs => segs.map (fun seg => (seg, hl))

/-- The wrapped-lines list built by `draw_code` (renderer.py lines 190-202):
pair each raw line with `i == cur_idx`, then wrap, preserving the flag. -/
def wrapped_lines (wrapF : String → List String) (lines : List String)
    (cur_idx : ℤ) : List (String × Bool) :=
  (lines.enum.map (fun p => (p.2, decide ((p.1 : ℤ) = cur_idx)))).foldl
    (fun acc q => acc ++ wrap_line_entry wrapF q.1 q.2) []

/-- The windowing step of `draw_code` (renderer.py lines 204-215):
`ctx = body_rows/2 - 1`, rounded window `[cur_idx - ctx, cur_idx + ctx]`,
shifted right when the start would be negative, end incremented, then a
Python slice of the wrapped lines. -/
def display_lines {α : Type} (body_rows : ℚ) (cur_idx : ℤ) (wrapped : List α) :
    List α :=
  let ctx := body_rows / 2 - 1
  let start_idx := pyRound ((cur_idx : ℚ) - ctx)
  let end_idx := pyRound ((cur_idx : ℚ) + ctx)
  let p := if start_idx < 0 then ((0 : ℤ), end_idx + (-start_idx))
           else (start_idx, end_idx)
  pySlice p.1 (p.2 + 1) wrapped

/-- `draw_output` (renderer.py lines 232-234): the lines actually rendered are
the Python slice `lines[-out_rows:]`. -/
def draw_output (out_rows : ℤ) (lines : List String) : List String :=
  pySliceFrom (-out_rows) lines

/-- Trunk X coordinate of the reference polyline, `draw_var_ref`
(renderer.py lines 294-296). -/
def right_line_x (last_var_x ref_var_x sect_padding w : ℚ) : ℚ :=
  min (max last_var_x ref_var_x + sect_padding) (w - sect_padding / 2)

/-- The per-frame Variable State consumed by `draw_variables`
(fields read by renderer.py lines 254-315). -/
structure VarState where
  name : String
  action : String
  text_lines : List String
  other_text_lines : List String
  ref : Option String
deriving DecidableEq

/-- The per-frame anchor fields of the renderer
(`last_var_x/y`, `ref_var_x/y`, renderer.py lines 65-68), each `None`
until first assigned. -/
structure Anchors where
  last_var_x : Option ℚ
  last_var_y : Option ℚ
  ref_var_x : Option ℚ
  ref_var_y : Option ℚ
deriving DecidableEq

/-- Initial anchor state set in `__init__` (renderer.py lines 65-68). -/
def initAnchors : Anchors := ⟨none, none, none, none⟩

/-- The reference-line search loop of `draw_other_vars`
(renderer.py lines 279-282): index of the first line equal to `ref + ":"`. -/
def findRefIdx (ref : String) (ls : List String) : Option ℕ :=
  ls.findIdx? (fun line => line == ref ++ ":")

/-- A Python runtime error surfaced by the embedding. -/
inductive PyError where
  | typeError
deriving DecidableEq

/-- Effect of `draw_other_vars` (renderer.py lines 270-289) on the anchor
fields.  `twBody` models `draw.textsize(· , font=body_font)`.  When the state
carries no reference, or no line matches `ref + ":"`, the anchors are left
untouched (the early `return` at line 284); otherwise the target anchor is
recorded from the matched line's width and index. -/
def draw_other_vars (twBody : String → ℚ × ℚ) (ovars_x ovars_y line_height : ℚ)
    (a : Anchors) (s : VarState) : Anchors :=
  match s.ref with
  | none => a
  | some r =>
    match findRefIdx r s.other_text_lines with
    | none => a
    | some i =>
      let line := s.other_text_lines.getD i ""
      let rw := (twBody (line ++ " ")).1
      { a with
        ref_var_x := some (ovars_x + rw)
        ref_var_y := some (ovars_y + line_height * (i + 1) - line_height / 2) }

/-- Effect of `draw_last_var` (renderer.py lines 254-268) on the anchor
fields: when the state carries a reference, the source anchor is recorded at
the end of the rendered action label. -/
def draw_last_var (twBody twBold : String → ℚ × ℚ) (vars_x vars_y : ℚ)
    (a : Anchors) (s : VarState) : Anchors :=
  match s.ref with
  | none => a
  | some _ =>
    let nw := (twBody (s.name ++ " ")).1
    let nh := (twBody (s.name ++ " ")).2
    let aw := (twBold (s.action ++ " ")).1
    { a with
      last_var_x := some (vars_x + nw + aw)
      last_var_y := some (vars_y - nh / 2) }

/-- `draw_var_ref` (renderer.py lines 291-308): computes the 4-point
orthogonal polyline between the two anchors.  If any anchor field is still
`None`, Python raises `TypeError` (`max` of a float and `None` at line 295,
or `None` coordinates handed to `draw.line`). -/
def draw_var_ref (w sect_padding : ℚ) (a : Anchors) :
    Except PyError (List (ℚ × ℚ)) :=
  match a.last_var_x, a.last_var_y, a.ref_var_x, a.ref_var_y with
  | some lx, some ly, some rx, some ry =>
    let t := right_line_x lx rx sect_padding w
    .ok [(lx, ly), (t, ly), (t, ry), (rx, ry)]
  | _, _, _, _ => .error .typeError

/-- `draw_variables` (renderer.py lines 310-315): draw the other-variables
block, then the last-variable block, then — whenever the state carries a
reference name, matched or not — call `draw_var_ref`.  Returns the updated
anchors and the polyline drawn, if any. -/
def draw_variables (twBody twBold : String → ℚ × ℚ)
    (ovars_x ovars_y line_height vars_x vars_y w sect_padding : ℚ)
    (a : Anchors) (s : VarState) :
    Except PyError (Anchors × Option (List (ℚ × ℚ))) :=
  let a1 := draw_other_vars twBody ovars_x ovars_y line_height a s
  let a2 := draw_last_var twBody twBold vars_x vars_y a1 s
  match s.ref with
  | none => .ok (a2, none)
  | some _ => (draw_var_ref w sect_padding a2).map (fun pl => (a2, some pl))

/-! ## Layout metrics and the frame lifecycle -/

/-- Configuration fields read by the renderer (renderer.py / `self.cfg`). -/
structure Config where
  w : ℚ
  h : ℚ
  var_x : ℚ
  out_y : ℚ
  ovar_y : ℚ
  sect_padding : ℚ
  head_padding : ℚ
  line_height : ℚ
  watermark : Bool
deriving DecidableEq

/-- Glyph metrics of the reference character `"A"` as returned by
`draw.textsize` in the body and heading fonts (renderer.py lines 79-80). -/
structure Glyph where
  body_w : ℚ
  body_h : ℚ
  head_w : ℚ
  head_h : ℚ
deriving DecidableEq

/-- The layout fields populated by `calc_sizes`
(renderer.py lines 44-62 / 77-111). -/
structure Metrics where
  line_height : ℚ
  body_cols : ℤ
  body_rows : ℚ
  out_x : ℚ
  out_y : ℚ
  out_cols : ℤ
  out_rows : ℤ
  vars_x : ℚ
  vars_y : ℚ
  vars_cols : ℤ
  vars_rows : ℤ
  ovars_x : ℚ
  ovars_y : ℚ
  ovars_cols : ℤ
  ovars_rows : ℤ
deriving DecidableEq

/-- `calc_sizes` (renderer.py lines 77-111), translated formula by formula.
Python `//` on the pixel quantities is floor division, `int(...)` truncates
toward zero, plain `/` is exact division. -/
def calc_sizes (cfg : Config) (g : Glyph) : Metrics :=
  let line_height := g.body_h * cfg.line_height
  let body_cols : ℤ := ⌊(cfg.var_x - cfg.sect_padding * 2) / g.body_w⌋
  let body_rows := (cfg.out_y - cfg.sect_padding * 2) / line_height - 1
  let out_x := cfg.sect_padding
  let out_y := cfg.out_y + cfg.head_padding * 2 + g.head_h - line_height
  let out_rows := pyInt ((cfg.h - out_y) / line_height)
  let vars_x := cfg.var_x + cfg.sect_padding
  let vars_y := cfg.head_padding * 2 + g.head_h
  let vars_cols : ℤ := ⌊(cfg.w - cfg.var_x - cfg.sect_padding * 2) / g.body_w⌋
  let vars_rows := pyInt ((cfg.ovar_y - cfg.sect_padding * 2) / line_height - 1)
  let ovars_x := vars_x
  let ovars_y := cfg.ovar_y + vars_y - line_height
  let ovars_h := cfg.h - cfg.ovar_y
  let ovars_rows := pyInt ((ovars_h - cfg.sect_padding * 2) / line_height - 1)
  { line_height := line_height
    body_cols := body_cols
    body_rows := body_rows
    out_x := out_x
    out_y := out_y
    out_cols := body_cols
    out_rows := out_rows
    vars_x := vars_x
    vars_y := vars_y
    vars_cols := vars_cols
    vars_rows := vars_rows
    ovars_x := ovars_x
    ovars_y := ovars_y
    ovars_cols := vars_cols
    ovars_rows := ovars_rows }

/-- Observable renderer state for the frame lifecycle.  Canvases are
abstracted to identifiers: `frame` is the identifier of the currently
retained canvas (`self.frame`, `None` before the first allocation),
`next_frame` the next fresh identifier, `writes` the sequence of canvas
identifiers handed to `encoder.write`, and `bad_mut` records whether any
operation drew on a canvas that had already been handed to the encoder. -/
structure RState where
  sizes_populated : Bool
  metrics : Option Metrics
  frame : Option ℕ
  next_frame : ℕ
  writes : List ℕ
  bad_mut : Bool
deriving DecidableEq

/-- Renderer state right after `__init__` with no intro configured
(renderer.py lines 42-71). -/
def initState : RState :=
  { sizes_populated := false
    metrics := none
    frame := none
    next_frame := 0
    writes := []
    bad_mut := false }

/-- The renderer operations driven by the caller between construction and
shutdown. `drawOp` stands for any of the content-drawing calls
(`draw_code`, `draw_output`, `draw_exec`); `finishOp`/`closeOp` carry
whether a Variable State is supplied. -/
inductive Op where
  | startOp : Op
  | drawOp : Op
  | finishOp : Bool → Op
  | closeOp : Bool → Op
deriving DecidableEq

/-- Effect of `finish_frame` (renderer.py lines 164-176) on the observable
state: a `None` frame bails out; otherwise the retained canvas is drawn on
(variables and/or watermark) and handed to `encoder.write`.  The frame field
is not cleared. -/
def finish_frame (cfg : Config) (has_var : Bool) (s : RState) : RState :=
  match s.frame with
  | none => s
  | some f =>
    let mutates := has_var || cfg.watermark
    { s with
      writes := s.writes ++ [f]
      bad_mut := s.bad_mut || (mutates && decide (f ∈ s.writes)) }

/-- One renderer operation.  `start_frame` (lines 131-162) allocates a fresh
canvas via `new_frame`, draws chrome on it, and lazily populates the layout
metrics once; a drawing call with no frame fails in Python
(`self.draw` is `None`); `finish_frame` and `close` share the
finish path (lines 164-176, 330-334). -/
def stepOp (cfg : Config) (g : Glyph) (s : RState) : Op → Except PyError RState
  | .startOp =>
    if s.sizes_populated then
      .ok { s with frame := some s.next_frame, next_frame := s.next_frame + 1 }
    else
      .ok { s with
            frame := some s.next_frame
            next_frame := s.next_frame + 1
            metrics := some (calc_sizes cfg g)
            sizes_populated := true }
  | .drawOp =>
    match s.frame with
    | none => .error .typeError
    | some f =>
      if f ∈ s.writes then .ok { s with bad_mut := true } else .ok s
  | .finishOp hv => .ok (finish_frame cfg hv s)
  | .closeOp hv => .ok (finish_frame cfg hv s)

/-- Run a sequence of renderer operations, propagating Python errors. -/
def runOps (cfg : Config) (g : Glyph) : RState → List Op → Except PyError RState
  | s, [] => .ok s
  | s, op :: t => (stepOp cfg g s op).bind (fun s1 => runOps cfg g s1 t)

/-- Caller protocol: between any two finish-type operations a fresh
`start_frame` occurs, and drawing only happens on a not-yet-submitted frame.
`hf` abstracts "a frame is allocated", `sub` "the allocated frame has already
been submitted to the encoder". -/
def protoOk : Bool → Bool → List Op → Bool
  | _, _, [] => true
  | _, _, .startOp :: t => protoOk true false t
  | hf, sub, .drawOp :: t => hf && !sub && protoOk hf sub t
  | hf, sub, .finishOp _ :: t => !(hf && sub) && protoOk hf (sub || hf) t
  | hf, sub, .closeOp _ :: t => !(hf && sub) && protoOk hf (sub || hf) t

/-! ## Concrete instances used as evaluation inputs -/

/-- A concrete configuration (the end-to-end scenario geometry of the spec,
watermark off). -/
def cfgDemo : Config := ⟨1200, 800, 800, 640, 260, 10, 10, 1, false⟩

/-- Concrete glyph metrics for the reference character. -/
def glyphDemo : Glyph := ⟨10, 20, 22, 24⟩

/-- A concrete wrap function: an empty line wraps to zero segments, any
other line to a single segment. -/
def wrapDemo : String → List String := fun s => if s = "" then [] else [s]

/-! ## Helper lemmas -/

/-- `pyRound` is the identity on integers. -/
theorem pyRound_intCast (z : ℤ) : pyRound (z : ℚ) = z := by
  simp [pyRound, Int.floor_intCast]

/-- `pySlice` with nonnegative bounds is drop-then-take. -/
theorem pySlice_nonneg {α : Type} (s e : ℤ) (hs : 0 ≤ s) (he : 0 ≤ e)
    (xs : List α) :
    pySlice s e xs = (xs.drop s.toNat).take (e.toNat - s.toNat) := by
  simp only [pySlice]
  rw [if_neg (not_lt.mpr hs), if_neg (not_lt.mpr he)]

/-- Folding with list append equals appending the flattening of the mapped
list. -/
theorem foldl_append_eq_join {α β : Type} (f : α → List β) (l : List α)
    (a : List β) :
    l.foldl (fun acc x => acc ++ f x) a = a ++ (l.map f).flatten := by
  induction l generalizing a with
  | nil => simp
  | cons x t ih => simp [ih]

/-- Evaluation of the windowing step at an even integer row capacity `2 * m`:
the context is the integer `m - 1`, so the window is the Python slice
`[i - m + 1 : i + m]`, shifted to `[0 : 2 * m - 1]` when the start would be
negative. -/
theorem display_lines_two_mul {α : Type} (m i : ℤ) (xs : List α) :
    display_lines ((2 * m : ℤ) : ℚ) i xs =
      if i - m + 1 < 0 then pySlice 0 (2 * m - 1) xs
      else pySlice (i - m + 1) (i + m) xs := by
  have h1 : (i : ℚ) - (((2 * m : ℤ) : ℚ) / 2 - 1) = ((i - m + 1 : ℤ) : ℚ) := by
    push_cast; ring
  have h2 : (i : ℚ) + (((2 * m : ℤ) : ℚ) / 2 - 1) = ((i + m - 1 : ℤ) : ℚ) := by
    push_cast; ring
  simp only [display_lines, h1, h2, pyRound_intCast]
  split_ifs with h
  · congr 1; ring
  · congr 1; ring

/-! ## Claims -/

/-- C1 counterexample: with 10 Display Lines and current index 4 — so more
than 6 lines are available on both sides combined — the window produced for
row capacity 6 does not contain exactly 6 lines: `round(4-2) = 2`,
`round(4+2) + 1 + 1 = 7`, and the slice `[2:7]` has 5 lines. -/
theorem c1_counterexample :
    6 ≤ (List.range 10).length ∧
    (display_lines (6 : ℚ) 4 (List.range 10)).length ≠ 6 := by
  have h6 : ((2 * (3 : ℤ) : ℤ) : ℚ) = (6 : ℚ) := by norm_num
  refine ⟨by decide, ?_⟩
  rw [← h6, display_lines_two_mul 3 4 (List.range 10)]
  decide

/-- C1 amended: for an even integer row capacity `R = 2 * m` (`m ≥ 1`) and
current line index `i`, if at least `max (R - 1) (i + m)` wrapped Display
Lines are available, the displayed window contains exactly `R - 1` lines
(one fewer than the row capacity) and contains the line at index `i`: it is
a contiguous slice starting at some `s0 ≤ i` of length `R - 1` with
`i < s0 + (R - 1)`. -/
theorem c1_amended {α : Type} (m i : ℕ) (xs : List α) (hm : 1 ≤ m)
    (hlen : max (2 * m - 1) (i + m) ≤ xs.length) :
    (display_lines ((2 * m : ℕ) : ℚ) (i : ℤ) xs).length = 2 * m - 1 ∧
    ∃ s0 : ℕ, display_lines ((2 * m : ℕ) : ℚ) (i : ℤ) xs
        = (xs.drop s0).take (2 * m - 1) ∧
      s0 ≤ i ∧ i < s0 + (2 * m - 1) := by
  have hl1 : 2 * m - 1 ≤ xs.length := le_trans (le_max_left _ _) hlen
  have hl2 : i + m ≤ xs.length := le_trans (le_max_right _ _) hlen
  have hcast : ((2 * (m : ℤ) : ℤ) : ℚ) = ((2 * m : ℕ) : ℚ) := by push_cast; ring
  rw [← hcast, display_lines_two_mul (m : ℤ) (i : ℤ) xs]
  by_cases h : (i : ℤ) - (m : ℤ) + 1 < 0
  · rw [if_pos h, pySlice_nonneg 0 (2 * (m : ℤ) - 1) le_rfl (by omega)]
    have ht : (2 * (m : ℤ) - 1).toNat = 2 * m - 1 := by omega
    have hz : (0 : ℤ).toNat = 0 := rfl
    rw [ht, hz]
    refine ⟨?_, 0, by rw [Nat.sub_zero], Nat.zero_le i, by omega⟩
    rw [List.length_take, List.length_drop]
    omega
  · rw [if_neg h, pySlice_nonneg _ _ (by omega) (by omega)]
    have h1 : ((i : ℤ) - (m : ℤ) + 1).toNat = i + 1 - m := by omega
    have h2 : ((i : ℤ) + (m : ℤ)).toNat = i + m := by omega
    rw [h1, h2]
    have h3 : i + m - (i + 1 - m) = 2 * m - 1 := by omega
    rw [h3]
    refine ⟨?_, i + 1 - m, rfl, by omega, by omega⟩
    rw [List.length_take, List.length_drop]
    omega

/-- Witness for C1 amended: capacity 6 (`m = 3`), index 4, 10 lines. -/
theorem c1_amended_witness :
    1 ≤ 3 ∧ max (2 * 3 - 1) (4 + 3) ≤ (List.range 10).length ∧
    (display_lines ((2 * 3 : ℕ) : ℚ) ((4 : ℕ) : ℤ) (List.range 10)).length
      = 2 * 3 - 1 :=
  ⟨by decide, by decide,
    (c1_amended 3 4 (List.range 10) (by decide) (by decide)).1⟩

/-- C2: when the Variable State carries a reference name matching no line
`"<name>:"` in the other-variables text, the code does not silently drop the
reference: `draw_variables` still calls `draw_var_ref` (the guard at
renderer.py line 314 only checks `state.ref is not None`), and on a frame
where no target anchor was ever recorded (`ref_var_x` is `None`) the call
raises `TypeError`.  This theorem evaluates the embedding at that failing
input. -/
theorem c2_missing_ref_raises :
    draw_variables (fun s => ((s.length : ℚ), 1)) (fun s => ((s.length : ℚ), 1))
      0 0 1 0 0 100 10 initAnchors
      ⟨"v", "=", [], ["y: 1"], some "x"⟩ = .error .typeError := rfl

/-- C4 counterexample: with 10 Display Lines, current index 1 and row
capacity 6, the window selected by the windowing step of `draw_code` is not
`[0, 1, 2, 3, 4, 5]` (indices 0 through 5) as the claim states. -/
theorem c4_counterexample :
    display_lines (6 : ℚ) 1 (List.range 10) ≠ List.range 6 := by
  have h6 : ((2 * (3 : ℤ) : ℤ) : ℚ) = (6 : ℚ) := by norm_num
  rw [← h6, display_lines_two_mul 3 1 (List.range 10)]
  decide

/-- C4 amended: with 10 Display Lines, current index 1 and row capacity 6,
the window starts at index 0 (not −1) and contains exactly the indices 0
through 4 — five lines, one fewer than the row capacity, because the slice
end is `round(1 + 2) + 1 + 1 = 5`. -/
theorem c4_amended :
    display_lines (6 : ℚ) 1 (List.range 10) = [0, 1, 2, 3, 4] := by
  have h6 : ((2 * (3 : ℤ) : ℤ) : ℚ) = (6 : ℚ) := by norm_num
  rw [← h6, display_lines_two_mul 3 1 (List.range 10)]
  decide

/-- C5 counterexample: `draw_output` with output row capacity 0 and a
one-line history renders the whole history, not a zero-length window: the
Python slice `lines[-0:]` is `lines[0:]`. -/
theorem c5_counterexample : draw_output 0 ["a"] ≠ [] := by decide

/-- C5 amended: with a zero or negative output row capacity `r`,
`draw_output` does not raise, but the window is not zero-length: it renders
`lines[-r:]`, i.e. the whole history when `r = 0` and the history minus its
first `|r|` lines when `r < 0` (empty only when the history itself has at
most `|r|` lines). -/
theorem c5_amended (r : ℤ) (xs : List String) (h : r ≤ 0) :
    draw_output r xs = xs.drop (-r).toNat := by
  simp only [draw_output, pySliceFrom]
  rw [if_neg (by omega)]

/-- Witness for C5 amended at `r = -2`. -/
theorem c5_amended_witness :
    (-2 : ℤ) ≤ 0 ∧ draw_output (-2) ["a", "b", "c"] = ["c"] := by
  refine ⟨by decide, ?_⟩
  rw [c5_amended (-2) ["a", "b", "c"] (by decide)]
  decide

/-- C6: the trunk X computed by `draw_var_ref` equals
`min (max source.x target.x + sect_padding) (w - sect_padding / 2)`, never
exceeds `w - sect_padding / 2`, and equals
`max source.x target.x + sect_padding` whenever that value is below the
bound. -/
theorem c6_router_trunk (sx tx pad w : ℚ) :
    right_line_x sx tx pad w = min (max sx tx + pad) (w - pad / 2) ∧
    right_line_x sx tx pad w ≤ w - pad / 2 ∧
    (max sx tx + pad < w - pad / 2 → right_line_x sx tx pad w = max sx tx + pad) :=
  ⟨rfl, min_le_right _ _, fun h => min_eq_left h.le⟩

/-- Witness for C6 at concrete anchors. -/
theorem c6_router_trunk_witness :
    max (30 : ℚ) 40 + 10 < 1200 - 10 / 2 ∧
    right_line_x 30 40 10 1200 = max 30 40 + 10 :=
  ⟨by norm_num, (c6_router_trunk 30 40 10 1200).2.2 (by norm_num)⟩

/-- C7: the wrapped-lines list of `draw_code` is the concatenation, over the
enumerated raw lines, of each raw line's contribution; the entry enumerated
at a valid index `i` is the raw line at `i` paired with its highlighted
flag; every Display Line contributed by a raw line carries that line's
highlighted flag (so a line wrapping into `k ≥ 1` segments yields `k`
flagged Display Lines), and a raw line that wraps to zero segments
contributes exactly one empty Display Line with the same flag. -/
theorem c7_wrap_flags (wrapF : String → List String) (lines : List String)
    (cur_idx : ℤ) (i : ℕ) (hi : i < lines.length) :
    wrapped_lines wrapF lines cur_idx
      = (lines.enum.map (fun p =>
          wrap_line_entry wrapF p.2 (decide ((p.1 : ℤ) = cur_idx)))).flatten ∧
    lines.enum[i]? = some (i, lines.getD i "") ∧
    (∀ p ∈ wrap_line_entry wrapF (lines.getD i "") (decide ((i : ℤ) = cur_idx)),
      p.2 = decide ((i : ℤ) = cur_idx)) ∧
    (wrapF (lines.getD i "") ≠ [] →
      (wrap_line_entry wrapF (lines.getD i "")
          (decide ((i : ℤ) = cur_idx))).length
        = (wrapF (lines.getD i "")).length) ∧
    (wrapF (lines.getD i "") = [] →
      wrap_line_entry wrapF (lines.getD i "") (decide ((i : ℤ) = cur_idx))
        = [("", decide ((i : ℤ) = cur_idx))]) := by
  refine ⟨?_, ?_, ?_, ?_, ?_⟩
  · simp only [wrapped_lines, foldl_append_eq_join, List.nil_append,
      List.map_map]
    rfl
  · rw [List.getElem?_enum, List.getElem?_eq_getElem hi,
      List.getD_eq_getElem lines "" hi]
    rfl
  · intro p hp
    rcases hw : wrapF (lines.getD i "") with _ | ⟨seg, segs⟩
    · simp only [wrap_line_entry, hw, List.mem_singleton] at hp
      rw [hp]
    · simp only [wrap_line_entry, hw, List.mem_map] at hp
      obtain ⟨q, _, hq⟩ := hp
      rw [← hq]
  · intro hne
    rcases hw : wrapF (lines.getD i "") with _ | ⟨seg, segs⟩
    · exact absurd hw hne
    · simp only [wrap_line_entry, hw, List.length_map]
  · intro hw
    simp only [wrap_line_entry, hw]

/-- Witness for C7 at a concrete wrap function and a raw empty line. -/
theorem c7_wrap_flags_witness :
    (1 : ℕ) < (["ab", ""] : List String).length ∧
    wrapDemo "" = [] ∧
    wrap_line_entry wrapDemo "" true = [("", true)] := by
  have h := (c7_wrap_flags wrapDemo ["ab", ""] 1 1 (by decide)).2.2.2.2
    (by decide)
  exact ⟨by decide, by decide, h⟩

/-- C8: when the output history has at least `r ≥ 1` lines, `draw_output`
renders exactly the last `r` lines in their original order (the suffix
obtained by dropping all but the last `r`). -/
theorem c8_output_tail (r : ℤ) (xs : List String) (h1 : 1 ≤ r)
    (h2 : r ≤ (xs.length : ℤ)) :
    draw_output r xs = xs.drop (xs.length - r.toNat) ∧
    (draw_output r xs).length = r.toNat := by
  simp only [draw_output, pySliceFrom]
  rw [if_pos (by omega)]
  have h3 : ((xs.length : ℤ) + -r).toNat = xs.length - r.toNat := by omega
  rw [h3]
  exact ⟨rfl, by rw [List.length_drop]; omega⟩

/-- Witness for C8: the last two of three lines, in order. -/
theorem c8_output_tail_witness :
    (1 : ℤ) ≤ 2 ∧ (2 : ℤ) ≤ (["a", "b", "c"].length : ℤ) ∧
    draw_output 2 ["a", "b", "c"] = ["b", "c"] ∧
    (draw_output 2 ["a", "b", "c"]).length = 2 := by
  have h := c8_output_tail 2 ["a", "b", "c"] (by decide) (by decide)
  exact ⟨by decide, by decide, h.1, h.2⟩

/-- C3 counterexample: `finish_frame` does not clear `self.frame`, so the
operation sequence `start_frame; finish_frame; finish_frame` writes the same
canvas (identifier 0) to the encoder twice, and the second `finish_frame`
draws on it after it was already handed off (`bad_mut = true`). -/
theorem c3_counterexample :
    (runOps cfgDemo glyphDemo initState
        [.startOp, .finishOp true, .finishOp true]).map
      (fun s => (s.writes, s.bad_mut)) = .ok ([0, 0], true) := rfl

/-- Relation between the renderer state and the abstract protocol flags of
`protoOk`: `hf` means a frame is allocated and `sub` means the allocated
frame was already submitted; writes are distinct, no bad mutation happened,
and all issued identifiers are below the allocation counter. -/
def ProtoInv (s : RState) (hf sub : Bool) : Prop :=
  s.writes.Nodup ∧ s.bad_mut = false ∧
  s.frame.isSome = hf ∧
  (∀ f, s.frame = some f → f < s.next_frame ∧ ((f ∈ s.writes) ↔ sub = true)) ∧
  (∀ x ∈ s.writes, x < s.next_frame)

/-- The initial renderer state satisfies the protocol invariant. -/
theorem protoInv_init : ProtoInv initState false false := by
  refine ⟨List.nodup_nil, rfl, rfl, ?_, ?_⟩
  · intro f hf
    simp [initState] at hf
  · intro x hx
    simp [initState] at hx

/-- The invariant-preserving effect of a finish-type step on a state holding
an unsubmitted frame `f`. -/
theorem finish_frame_inv (cfg : Config) (hv : Bool) (s : RState) (f : ℕ)
    (hfeq : s.frame = some f) (hnd : s.writes.Nodup)
    (hbm : s.bad_mut = false) (hflt : f < s.next_frame)
    (hmem : f ∉ s.writes) (hwb : ∀ x ∈ s.writes, x < s.next_frame) :
    finish_frame cfg hv s
      = { s with writes := s.writes ++ [f], bad_mut := false } ∧
    ProtoInv { s with writes := s.writes ++ [f], bad_mut := false } true true := by
  constructor
  · simp only [finish_frame, hfeq]
    have hdec : decide (f ∈ s.writes) = false := decide_eq_false hmem
    rw [hdec, Bool.and_false, Bool.or_false, hbm]
  · refine ⟨?_, rfl, ?_, ?_, ?_⟩
    · rw [List.nodup_append]
      refine ⟨hnd, List.nodup_singleton f, ?_⟩
      intro a ha hb
      rw [List.mem_singleton] at hb
      subst hb
      exact hmem ha
    · show s.frame.isSome = true
      rw [hfeq]
      rfl
    · intro f2 hf2
      have : s.frame = some f2 := hf2
      rw [hfeq] at this
      obtain rfl : f = f2 := Option.some_injective _ this
      refine ⟨hflt, ?_⟩
      simp
    · intro x hx
      rw [List.mem_append, List.mem_singleton] at hx
      rcases hx with hx | rfl
      · exact hwb x hx
      · exact hflt

/-- Protocol-respecting operation sequences preserve the invariant and thus
never duplicate a write nor mutate a submitted canvas. -/
theorem runOps_protoOk (cfg : Config) (g : Glyph) :
    ∀ (ops : List Op) (s : RState) (hf sub : Bool),
    protoOk hf sub ops = true → ProtoInv s hf sub →
    ∀ s1, runOps cfg g s ops = .ok s1 →
    s1.writes.Nodup ∧ s1.bad_mut = false := by
  intro ops
  induction ops with
  | nil =>
    intro s hf sub _ hinv s1 hrun
    simp only [runOps, Except.ok.injEq] at hrun
    rw [← hrun]
    exact ⟨hinv.1, hinv.2.1⟩
  | cons op t ih =>
    intro s hf sub hp hinv s1 hrun
    obtain ⟨hnd, hbm, hfs, hfr, hwb⟩ := hinv
    cases op with
    | startOp =>
      simp only [protoOk] at hp
      have hnext : s.next_frame ∉ s.writes := by
        intro hmem
        exact absurd (hwb _ hmem) (lt_irrefl _)
      have hinv2 : ∀ m2 p2, ProtoInv
          { s with
            frame := some s.next_frame
            next_frame := s.next_frame + 1
            metrics := m2
            sizes_populated := p2 } true false := by
        intro m2 p2
        refine ⟨hnd, hbm, rfl, ?_, ?_⟩
        · intro f hfeq
          have h2 : some s.next_frame = some f := hfeq
          obtain rfl : s.next_frame = f := Option.some_injective _ h2
          refine ⟨Nat.lt_succ_self _, ⟨fun hmem => absurd (hwb _ hmem)
            (lt_irrefl _), fun hc => absurd hc Bool.false_ne_true⟩⟩
        · intro x hx
          exact Nat.lt_succ_of_lt (hwb x hx)
      rcases hpop : s.sizes_populated with _ | _
      · have hstep : stepOp cfg g s .startOp = .ok
            { s with
              frame := some s.next_frame
              next_frame := s.next_frame + 1
              metrics := some (calc_sizes cfg g)
              sizes_populated := true } := by
          simp [stepOp, hpop]
        rw [runOps, hstep] at hrun
        exact ih _ true false hp (hinv2 (some (calc_sizes cfg g)) true) s1 hrun
      · have hstep : stepOp cfg g s .startOp = .ok
            { s with
              frame := some s.next_frame
              next_frame := s.next_frame + 1 } := by
          simp [stepOp, hpop]
        rw [runOps, hstep] at hrun
        exact ih _ true false hp (hinv2 s.metrics s.sizes_populated) s1 hrun
    | drawOp =>
      simp only [protoOk, Bool.and_eq_true, Bool.not_eq_true'] at hp
      obtain ⟨⟨hhf, hsub⟩, hpt⟩ := hp
      subst hhf; subst hsub
      obtain ⟨f, hfeq⟩ := Option.isSome_iff_exists.mp hfs
      have hmem : f ∉ s.writes := by
        intro hc
        exact Bool.noConfusion ((hfr f hfeq).2.mp hc)
      have hstep : stepOp cfg g s .drawOp = .ok s := by
        simp [stepOp, hfeq, hmem]
      rw [runOps, hstep] at hrun
      exact ih s true false hpt ⟨hnd, hbm, hfs, hfr, hwb⟩ s1 hrun
    | finishOp hv =>
      simp only [protoOk, Bool.and_eq_true] at hp
      rcases hfeq : s.frame with _ | f
      · have hhf : hf = false := by rw [← hfs, hfeq]; rfl
        subst hhf
        have hstep : stepOp cfg g s (.finishOp hv) = .ok s := by
          simp [stepOp, finish_frame, hfeq]
        rw [runOps, hstep] at hrun
        have hpt := hp.2
        rw [Bool.or_false] at hpt
        exact ih s false sub hpt ⟨hnd, hbm, hfs, hfr, hwb⟩ s1 hrun
      · have hhf : hf = true := by rw [← hfs, hfeq]; rfl
        subst hhf
        have hsub : sub = false := by
          rcases hsubv : sub with _ | _
          · rfl
          · exfalso
            have h1 := hp.1
            rw [hsubv] at h1
            simp at h1
        subst hsub
        have hflt := (hfr f hfeq).1
        have hmem : f ∉ s.writes := by
          intro hc
          exact Bool.noConfusion ((hfr f hfeq).2.mp hc)
        obtain ⟨heq, hinv2⟩ :=
          finish_frame_inv cfg hv s f hfeq hnd hbm hflt hmem hwb
        have hstep : stepOp cfg g s (.finishOp hv)
            = .ok { s with writes := s.writes ++ [f], bad_mut := false } :=
          congrArg Except.ok heq
        rw [runOps, hstep] at hrun
        exact ih _ true true hp.2 hinv2 s1 hrun
    | closeOp hv =>
      simp only [protoOk, Bool.and_eq_true] at hp
      rcases hfeq : s.frame with _ | f
      · have hhf : hf = false := by rw [← hfs, hfeq]; rfl
        subst hhf
        have hstep : stepOp cfg g s (.closeOp hv) = .ok s := by
          simp [stepOp, finish_frame, hfeq]
        rw [runOps, hstep] at hrun
        have hpt := hp.2
        rw [Bool.or_false] at hpt
        exact ih s false sub hpt ⟨hnd, hbm, hfs, hfr, hwb⟩ s1 hrun
      · have hhf : hf = true := by rw [← hfs, hfeq]; rfl
        subst hhf
        have hsub : sub = false := by
          rcases hsubv : sub with _ | _
          · rfl
          · exfalso
            have h1 := hp.1
            rw [hsubv] at h1
            simp at h1
        subst hsub
        have hflt := (hfr f hfeq).1
        have hmem : f ∉ s.writes := by
          intro hc
          exact Bool.noConfusion ((hfr f hfeq).2.mp hc)
        obtain ⟨heq, hinv2⟩ :=
          finish_frame_inv cfg hv s f hfeq hnd hbm hflt hmem hwb
        have hstep : stepOp cfg g s (.closeOp hv)
            = .ok { s with writes := s.writes ++ [f], bad_mut := false } :=
          congrArg Except.ok heq
        rw [runOps, hstep] at hrun
        exact ih _ true true hp.2 hinv2 s1 hrun

/-- C3 amended: after `finish_frame` hands a Canvas to the encoder, no later
operation mutates or re-submits it, PROVIDED the caller starts a fresh frame
between finish-type operations and only draws on an unsubmitted frame (the
`protoOk` protocol).  Because `finish_frame` retains `self.frame`, a repeated
`finish_frame`/`close` without an intervening `start_frame` re-submits and
re-mutates the already handed-off Canvas. -/
theorem c3_amended (cfg : Config) (g : Glyph) (ops : List Op) (s1 : RState)
    (hp : protoOk false false ops = true)
    (hrun : runOps cfg g initState ops = .ok s1) :
    s1.writes.Nodup ∧ s1.bad_mut = false :=
  runOps_protoOk cfg g ops initState false false hp protoInv_init s1 hrun

/-- Witness for C3 amended on the protocol-respecting sequence
`start_frame; draw; finish_frame`. -/
theorem c3_amended_witness :
    protoOk false false [Op.startOp, Op.drawOp, Op.finishOp true] = true ∧
    (RState.mk true (some (calc_sizes cfgDemo glyphDemo)) (some 0) 1 [0]
        false).writes.Nodup ∧
    (RState.mk true (some (calc_sizes cfgDemo glyphDemo)) (some 0) 1 [0]
        false).bad_mut = false := by
  have h := c3_amended cfgDemo glyphDemo [Op.startOp, Op.drawOp, Op.finishOp true]
    (RState.mk true (some (calc_sizes cfgDemo glyphDemo)) (some 0) 1 [0] false)
    (by decide) rfl
  exact ⟨by decide, h.1, h.2⟩

/-- C9: `finish_frame` with no allocated frame is a no-op: the renderer
state (and hence the canvas and the encoder write list) is left unchanged. -/
theorem c9_finish_no_frame (cfg : Config) (g : Glyph) (hv : Bool) (s : RState)
    (h : s.frame = none) :
    stepOp cfg g s (.finishOp hv) = .ok s := by
  simp only [stepOp, finish_frame, h]

/-- Witness for C9 at the initial renderer state. -/
theorem c9_finish_no_frame_witness :
    initState.frame = none ∧
    stepOp cfgDemo glyphDemo initState (.finishOp true) = .ok initState :=
  ⟨rfl, c9_finish_no_frame cfgDemo glyphDemo true initState rfl⟩

/-- A single renderer operation on a state whose layout metrics are already
populated leaves the metrics untouched and the populated flag set. -/
theorem stepOp_metrics_stable (cfg : Config) (g : Glyph) (s : RState)
    (op : Op) (s1 : RState) (hpop : s.sizes_populated = true)
    (hstep : stepOp cfg g s op = .ok s1) :
    s1.metrics = s.metrics ∧ s1.sizes_populated = true := by
  cases op with
  | startOp =>
    simp only [stepOp, hpop, if_true, Except.ok.injEq] at hstep
    rw [← hstep]
    exact ⟨rfl, rfl⟩
  | drawOp =>
    rcases hfeq : s.frame with _ | f
    · simp only [stepOp, hfeq] at hstep
      exact Except.noConfusion hstep
    · simp only [stepOp, hfeq] at hstep
      by_cases hmem : f ∈ s.writes
      · rw [if_pos hmem] at hstep
        simp only [Except.ok.injEq] at hstep
        rw [← hstep]
        exact ⟨rfl, hpop⟩
      · rw [if_neg hmem] at hstep
        simp only [Except.ok.injEq] at hstep
        rw [← hstep]
        exact ⟨rfl, hpop⟩
  | finishOp hv =>
    simp only [stepOp, Except.ok.injEq] at hstep
    rw [← hstep]
    rcases hfeq : s.frame with _ | f <;>
      · simp only [finish_frame, hfeq]
        exact ⟨trivial, hpop⟩
  | closeOp hv =>
    simp only [stepOp, Except.ok.injEq] at hstep
    rw [← hstep]
    rcases hfeq : s.frame with _ | f <;>
      · simp only [finish_frame, hfeq]
        exact ⟨trivial, hpop⟩

/-- Layout metrics, once populated, survive any operation sequence. -/
theorem runOps_metrics_stable (cfg : Config) (g : Glyph) :
    ∀ (ops : List Op) (s : RState), s.sizes_populated = true →
    ∀ s1, runOps cfg g s ops = .ok s1 →
    s1.metrics = s.metrics ∧ s1.sizes_populated = true := by
  intro ops
  induction ops with
  | nil =>
    intro s hpop s1 hrun
    simp only [runOps, Except.ok.injEq] at hrun
    rw [← hrun]
    exact ⟨rfl, hpop⟩
  | cons op t ih =>
    intro s hpop s1 hrun
    rcases hstep : stepOp cfg g s op with e | s2
    · rw [runOps, hstep] at hrun
      simp only [Except.bind] at hrun
      exact Except.noConfusion hrun
    · rw [runOps, hstep] at hrun
      obtain ⟨hm2, hp2⟩ := stepOp_metrics_stable cfg g s op s2 hpop hstep
      obtain ⟨hm1, hp1⟩ := ih s2 hp2 s1 hrun
      exact ⟨hm1.trans hm2, hp1⟩

/-- C10: layout metrics are computed lazily exactly once — on the first
`start_frame`, right after the drawing surface is created — and every later
operation leaves all layout fields unchanged: after any operation sequence
beginning with `start_frame`, the metrics are exactly
`calc_sizes cfg glyph` as computed on that first frame. -/
theorem c10_layout_once (cfg : Config) (g : Glyph) (ops : List Op)
    (s1 : RState)
    (hrun : runOps cfg g initState (Op.startOp :: ops) = .ok s1) :
    s1.metrics = some (calc_sizes cfg g) ∧ s1.sizes_populated = true := by
  have hstep : stepOp cfg g initState .startOp
      = .ok { initState with
                frame := some initState.next_frame
                next_frame := initState.next_frame + 1
                metrics := some (calc_sizes cfg g)
                sizes_populated := true } := rfl
  rw [runOps, hstep] at hrun
  obtain ⟨hm, hp⟩ := runOps_metrics_stable cfg g ops _ rfl s1 hrun
  exact ⟨hm, hp⟩

/-- Witness for C10 after a single `start_frame`. -/
theorem c10_layout_once_witness :
    (RState.mk true (some (calc_sizes cfgDemo glyphDemo)) (some 0) 1 []
        false).metrics = some (calc_sizes cfgDemo glyphDemo) ∧
    (RState.mk true (some (calc_sizes cfgDemo glyphDemo)) (some 0) 1 []
        false).sizes_populated = true :=
  c10_layout_once cfgDemo glyphDemo []
    (RState.mk true (some (calc_sizes cfgDemo glyphDemo)) (some 0) 1 [] false)
    rfl

end Vardbg
